import Mathlib

/-!
Verification of the quota-enforced dispatch core of the `ocr` service.

The development shallowly embeds the relevant Python code:

* `app/api_keys.py` — credential records, `validate_api_key`,
  `check_rate_limit`, `update_key_usage`;
* `app/auth.py` — the admission path `get_api_key`;
* `app/vlm_engine.py` — `understand_image`'s protocol (semaphore, health
  probe, failure mapping, reasoning-tag post-processing) and batching;
* `app/ocr_engine.py` — `preprocess_image`'s transform steps and
  `perform_batch_ocr`.

Strings are embedded as `List Char`; timestamps as `Int` seconds.  Python's
`str.split`, `str.replace` and `str.strip` are embedded as fuel-indexed
structural recursions (the fuel is always instantiated to the string length,
which suffices for the recursion) so that every definition computes in the
kernel.
-/

set_option maxRecDepth 4000

namespace OcrCore

/-! ## Embedded string primitives (Python `str` operations on `List Char`) -/

/-- Whitespace recognized by Python's `str.strip()` (ASCII range). -/
def isSpaceChar (c : Char) : Bool :=
  c = ' ' || c = '\t' || c = '\n' || c = '\r' || c = '\x0b' || c = '\x0c'

/-- Python `s.strip()`: drop whitespace from both ends. -/
def stripL (s : List Char) : List Char :=
  ((s.dropWhile isSpaceChar).reverse.dropWhile isSpaceChar).reverse

/-- Python `sub in s` for a non-empty `sub = c :: cs`. -/
def containsL (c : Char) (cs : List Char) : List Char → Bool
  | [] => false
  | x :: xs => (c :: cs).isPrefixOf (x :: xs) || containsL c cs xs

/-- Python `s.split(sub)` for non-empty `sub = c :: cs`, with explicit fuel
making the recursion structural; `fuel ≥ s.length` gives the real result. -/
def splitOnFuel (c : Char) (cs : List Char) : Nat → List Char → List (List Char)
  | 0, s => [s]
  | _ + 1, [] => [[]]
  | fuel + 1, x :: xs =>
    if (c :: cs).isPrefixOf (x :: xs) then
      [] :: splitOnFuel c cs fuel (xs.drop cs.length)
    else
      match splitOnFuel c cs fuel xs with
      | [] => [[x]]
      | h :: t => (x :: h) :: t

/-- Python `s.split(sub)` for non-empty `sub = c :: cs`. -/
def splitOnL (c : Char) (cs : List Char) (s : List Char) : List (List Char) :=
  splitOnFuel c cs s.length s

/-- Python `s.replace(sub, "")` for non-empty `sub = c :: cs`, fuel-indexed. -/
def removeAllFuel (c : Char) (cs : List Char) : Nat → List Char → List Char
  | 0, s => s
  | _ + 1, [] => []
  | fuel + 1, x :: xs =>
    if (c :: cs).isPrefixOf (x :: xs) then
      removeAllFuel c cs fuel (xs.drop cs.length)
    else
      x :: removeAllFuel c cs fuel xs

/-- Python `s.replace(sub, "")` for non-empty `sub = c :: cs`. -/
def removeAllL (c : Char) (cs : List Char) (s : List Char) : List Char :=
  removeAllFuel c cs s.length s

/-! ## Reasoning-tag post-processing (`vlm_engine.understand_image`, 166–185) -/

/-- Head of the closing reasoning delimiter. -/
def cTagHead : Char := '<'

/-- Tail of the closing reasoning delimiter: together `"</think>"`. -/
def cTagTail : List Char := "/think>".data

/-- Head of the opening reasoning delimiter. -/
def oTagHead : Char := '<'

/-- Tail of the opening reasoning delimiter: together `"<think>"`. -/
def oTagTail : List Char := "think>".data

/-- The closing reasoning delimiter as a character list. -/
def closeTag : List Char := cTagHead :: cTagTail

/-- The opening reasoning delimiter as a character list. -/
def openTag : List Char := oTagHead :: oTagTail

/-- Embeds the response post-processing of `understand_image`
(`vlm_engine.py` lines 172–185): if the closing tag occurs, the content is
the last `split` part, stripped (the `len(parts) > 1` guard with its dead
`else` branch is kept as written); else if the opening tag occurs, the
content has opening tags removed and is stripped; else it is unchanged. -/
def stripThink (content : List Char) : List Char :=
  if containsL cTagHead cTagTail content then
    let parts := splitOnL cTagHead cTagTail content
    if 1 < parts.length then
      stripL (parts.getLastD [])
    else
      stripL (removeAllL cTagHead cTagTail (removeAllL oTagHead oTagTail content))
  else if containsL oTagHead oTagTail content then
    stripL (removeAllL oTagHead oTagTail content)
  else
    content

/-! ## Remote understanding dispatcher (`vlm_engine.understand_image`) -/

/-- Observable protocol steps of `understand_image`, in program order. -/
inductive VlmEvent
  | acquire
  | probe
  | resizeImg
  | encodeImg
  | mainCall
  | release
deriving DecidableEq

/-- Outcome of the main inference HTTP call, the external input to the
dispatcher's `try` block (`vlm_engine.py` lines 149–162). -/
inductive CallOutcome
  | ok (content : List Char)
  | timedOut
  | httpError (status : Nat) (body : List Char)
  | transportError (msg : List Char)
deriving DecidableEq

/-- The exception kinds `understand_image` raises: `ConnectionError`,
`TimeoutError`, `RuntimeError`. -/
inductive VlmFailure
  | connectionError (msg : List Char)
  | timeoutError (msg : List Char)
  | runtimeError (msg : List Char)
deriving DecidableEq

/-- Message of the `ConnectionError` raised on a failed health probe. -/
def vlmNotAvailableMsg (err : List Char) : List Char :=
  "VLM server not available: ".data ++ err

/-- Message of the `TimeoutError` (default `VLM_TIMEOUT` is 300 seconds). -/
def vlmTimeoutMsg : List Char :=
  "VLM request timed out after 300 seconds".data

/-- Message of the `RuntimeError` raised on a non-2xx backend response; it
carries the backend's status code and body. -/
def vlmServerErrMsg (status : Nat) (body : List Char) : List Char :=
  "VLM server error: ".data ++ (Nat.repr status).data ++ " - ".data ++ body

/-- Message of the `RuntimeError` raised on any other transport failure. -/
def vlmRequestFailedMsg (msg : List Char) : List Char :=
  "VLM request failed: ".data ++ msg

/-- Event trace of a run of `understand_image` that passes the health probe:
slot acquired, probe, resize, base64 encode, main call, slot released. -/
def vlmFullTrace : List VlmEvent :=
  [.acquire, .probe, .resizeImg, .encodeImg, .mainCall, .release]

/-- Embeds `understand_image` (`vlm_engine.py` lines 109–194): the body runs
inside `async with semaphore`, so the slot is acquired first; the health
probe is the first step inside the gated section, and an unhealthy probe
raises `ConnectionError` before resize/encode/main call; the `try/except`
around the HTTP call maps a timeout to `TimeoutError` and both a non-2xx
response and any other failure to `RuntimeError`; a successful response's
content is post-processed by the reasoning-tag stripping. -/
def understandImage (healthy : Bool) (probeErr : List Char) (outcome : CallOutcome) :
    List VlmEvent × Except VlmFailure (List Char) :=
  if healthy = false then
    ([.acquire, .probe, .release], .error (.connectionError (vlmNotAvailableMsg probeErr)))
  else
    match outcome with
    | .timedOut => (vlmFullTrace, .error (.timeoutError vlmTimeoutMsg))
    | .httpError status body => (vlmFullTrace, .error (.runtimeError (vlmServerErrMsg status body)))
    | .transportError m => (vlmFullTrace, .error (.runtimeError (vlmRequestFailedMsg m)))
    | .ok content => (vlmFullTrace, .ok (stripThink content))

/-- Embeds the exception mapping of the route `understand_document`
(`routes/understand.py` lines 162–176): `ConnectionError` becomes 503,
`TimeoutError` becomes 504, every other exception becomes 500. -/
def routeStatus : VlmFailure → Nat
  | .connectionError _ => 503
  | .timeoutError _ => 504
  | .runtimeError _ => 500

/-- Whether a dispatcher result is the backend-unavailable failure
(`ConnectionError`, HTTP 503). -/
def resultIsUnavailable : Except VlmFailure (List Char) → Bool
  | .error (.connectionError _) => true
  | _ => false

/-! ## Credential store and sliding-window quota guard (`api_keys.py`) -/

/-- A stored credential record, the relevant fields of the JSON objects
managed by `api_keys.py`. -/
structure KeyRecord where
  id : List Char
  name : List Char
  key_hash : List Char
  is_active : Bool
  rate_limit_per_minute : Nat
  rate_limit_per_day : Nat
  total_requests : Nat
  requests_log : List Int
  last_used : Option Int
deriving DecidableEq

/-- Deny reason of the per-minute ceiling. -/
def perMinuteMsg : List Char :=
  "Rate limit exceeded: too many requests per minute".data

/-- Deny reason of the per-day ceiling. -/
def dailyMsg : List Char :=
  "Rate limit exceeded: daily limit reached".data

/-- Embeds `check_rate_limit` (`api_keys.py` lines 128–153): count events
newer than `now - 60`; deny per-minute if the count reaches the per-minute
limit; else count events newer than `now - 86400`; deny daily if that count
reaches the per-day limit; else admit. -/
def checkRateLimit (k : KeyRecord) (now : Int) : Bool × List Char :=
  let requestsLastMinute := (k.requests_log.filter (fun ts => decide (now - 60 < ts))).length
  if k.rate_limit_per_minute ≤ requestsLastMinute then
    (false, perMinuteMsg)
  else
    let requestsToday := (k.requests_log.filter (fun ts => decide (now - 86400 < ts))).length
    if k.rate_limit_per_day ≤ requestsToday then
      (false, dailyMsg)
    else
      (true, [])

/-- Number of usage events with timestamp strictly greater than `cutoff`
(the sliding-window count the specification speaks about). -/
def countSince (log : List Int) (cutoff : Int) : Nat :=
  (log.filter (fun ts => decide (cutoff < ts))).length

/-- Embeds the per-record effect of `update_key_usage` (`api_keys.py` lines
102–125): set `last_used`, bump `total_requests`, append `now` to the log,
then keep only events newer than `now - 86400`. -/
def updateKeyUsage (k : KeyRecord) (now : Int) : KeyRecord :=
  { k with
    last_used := some now
    total_requests := k.total_requests + 1
    requests_log := (k.requests_log ++ [now]).filter (fun ts => decide (now - 86400 < ts)) }

/-- Embeds `update_key_usage`'s effect on the whole store: a record whose id
matches is updated, every other record (and a store without the id) is left
unchanged. -/
def updateKeyUsageStore (store : List KeyRecord) (kid : List Char) (now : Int) :
    List KeyRecord :=
  store.map (fun k => if k.id = kid then updateKeyUsage k now else k)

/-- Observable effects of `validate_api_key` before it returns: computing
the secret's digest and reading the credential store. -/
inductive AuthEvent
  | computeDigest
  | loadStore
deriving DecidableEq

/-- The mandatory secret marker: issued keys start with `"ocr_"`. -/
def keyMarker : List Char := "ocr_".data

/-- Embeds the lookup loop of `validate_api_key`: first record whose stored
digest equals the computed digest wins; an inactive match returns `None`
immediately. -/
def findByHash (kh : List Char) : List KeyRecord → Option KeyRecord
  | [] => none
  | k :: rest =>
    if k.key_hash = kh then
      (if k.is_active = false then none else some k)
    else
      findByHash kh rest

/-- Embeds `validate_api_key` (`api_keys.py` lines 85–99) together with its
observable effects: an empty secret or one not starting with `"ocr_"`
returns `None` before the digest is computed or the store is read. The
digest function is a parameter (the source uses SHA-256, an external
primitive). -/
def validateApiKey (digest : List Char → List Char) (raw : List Char)
    (store : List KeyRecord) : List AuthEvent × Option KeyRecord :=
  if raw.isEmpty || !(keyMarker.isPrefixOf raw) then
    ([], none)
  else
    ([.computeDigest, .loadStore], findByHash (digest raw) store)

/-- Outcome of the admission dependency `get_api_key`. -/
inductive AuthOutcome
  | missingKey
  | invalidKey
  | rateLimited (msg : List Char)
  | admitted (k : KeyRecord)
deriving DecidableEq

/-- Embeds `get_api_key` (`auth.py` lines 54–82) as a step on the credential
store: missing key and unknown/inactive key fail with no store change; the
quota guard is evaluated on the looked-up record (whose log does not contain
the current request); a deny returns with no store change; an admit records
usage via `update_key_usage` and returns the pre-update record.  The guard
and the recorder each read the clock themselves, hence the two times. -/
def getApiKey (digest : List Char → List Char) (raw : List Char)
    (store : List KeyRecord) (tCheck tRecord : Int) : AuthOutcome × List KeyRecord :=
  if raw.isEmpty then
    (.missingKey, store)
  else
    match (validateApiKey digest raw store).2 with
    | none => (.invalidKey, store)
    | some keyData =>
      if (checkRateLimit keyData tCheck).1 = false then
        (.rateLimited (checkRateLimit keyData tCheck).2, store)
      else
        (.admitted keyData, updateKeyUsageStore store keyData.id tRecord)

/-- Whether an admission outcome admits the request. -/
def isAdmitted : AuthOutcome → Bool
  | .admitted _ => true
  | _ => false

/-- A demonstration credential with `rate_limit_per_minute = 2` and no
recent usage events, for the three-rapid-requests scenario. -/
def demoKey : KeyRecord :=
  ⟨"id1".data, "demo".data, "ocr_demo".data, true, 2, 1000, 0, [], none⟩

/-- The store holding only the demonstration credential. -/
def demoStore : List KeyRecord := [demoKey]

/-- A digest function for scenarios (the identity; `validate_api_key` only
compares digests for equality). -/
def identityDigest : List Char → List Char := fun s => s

/-- First of three rapid sequential requests (guard and recorder at `t = 0`). -/
def demoStep1 : AuthOutcome × List KeyRecord :=
  getApiKey identityDigest "ocr_demo".data demoStore 0 0

/-- Second rapid request, against the store the first one left. -/
def demoStep2 : AuthOutcome × List KeyRecord :=
  getApiKey identityDigest "ocr_demo".data demoStep1.2 1 1

/-- Third rapid request, against the store the second one left. -/
def demoStep3 : AuthOutcome × List KeyRecord :=
  getApiKey identityDigest "ocr_demo".data demoStep2.2 2 2

/-! ## Batch orchestrators (`ocr_engine.perform_batch_ocr`,
`vlm_engine.batch_understand_images`) -/

/-- One per-item record of a batch result: a success carrying the item's
text, or a per-item error record carrying the failure message. -/
inductive ItemRecord
  | ok (filename text : List Char)
  | err (filename msg : List Char)
deriving DecidableEq

/-- The aggregate batch result (wall-clock time is not modelled). -/
structure BatchResult where
  total_files : Nat
  successful : Nat
  failed : Nat
  results : List ItemRecord
deriving DecidableEq

/-- Embeds the per-item loop of `perform_batch_ocr` (`ocr_engine.py` lines
253–281): each item is tried independently; a success appends a success
record and bumps `successful`, an exception appends an error record and
bumps `failed`; records keep input order.  The per-item operation (the
`perform_ocr` call, which depends on the external OCR engine) is a
parameter. -/
def batchRun {β : Type} (runItem : β → Except (List Char) (List Char)) :
    List (List Char × β) → List ItemRecord × Nat × Nat
  | [] => ([], 0, 0)
  | (fn, img) :: rest =>
    match runItem img, batchRun runItem rest with
    | .ok t, (rs, s, f) => (.ok fn t :: rs, s + 1, f)
    | .error e, (rs, s, f) => (.err fn e :: rs, s, f + 1)

/-- Embeds `perform_batch_ocr`'s aggregate: total is the input length, and
the success/failure counters and ordered records come from the loop. -/
def performBatchOcr {β : Type} (runItem : β → Except (List Char) (List Char))
    (images : List (List Char × β)) : BatchResult :=
  match batchRun runItem images with
  | (rs, s, f) => ⟨images.length, s, f, rs⟩

/-- Whether a per-item record is a success record. -/
def isOkRecord : ItemRecord → Bool
  | .ok _ _ => true
  | .err _ _ => false

/-- The filename a per-item record carries. -/
def recordFilename : ItemRecord → List Char
  | .ok fn _ => fn
  | .err fn _ => fn

/-- Whether an `Except` value is a success. -/
def exceptIsOk {ε α : Type} : Except ε α → Bool
  | .ok _ => true
  | .error _ => false

/-- Embeds `batch_understand_images` (`vlm_engine.py` lines 217–256):
`asyncio.gather` keeps input order and every item produces a record
(`process_single` catches every exception); `successful` counts the success
records and `failed` is the remainder. -/
def batchUnderstand {β : Type} (runItem : β → Except (List Char) (List Char))
    (images : List (List Char × β)) : BatchResult :=
  let results := images.map (fun p =>
    match runItem p.2 with
    | .ok r => ItemRecord.ok p.1 r
    | .error e => ItemRecord.err p.1 e)
  ⟨images.length, (results.filter isOkRecord).length,
   results.length - (results.filter isOkRecord).length, results⟩

/-- The error `image_to_cv2` raises on an undecodable image. -/
def decodeErrMsg : List Char := "Could not decode image".data

/-- A concrete per-item operation for scenarios: an undecodable image (the
`none` payload) fails with the decode error, a decodable one extracts its
text. -/
def decodeOrOcr : Option (List Char) → Except (List Char) (List Char)
  | none => .error decodeErrMsg
  | some t => .ok t

/-! ## Image transform pipeline (`ocr_engine.preprocess_image`) -/

/-- Interpolation kinds used by the rescale step. -/
inductive Interp
  | cubic
  | lanczos
deriving DecidableEq

/-- One step of the deterministic transform pipeline.  The upscale factor is
kept in tenths (30 is the source's 3×; 25 would be the 2.5× the spec's
digital-chart preset describes). -/
inductive TStep
  | grayscale
  | upscale (factorTenths : Nat) (interp : Interp)
  | otsuInvBinary
  | removeHVLines
  | invert
  | addBorder (px : Nat)
  | otsuBinaryPlain
  | autoInvertIfDark
deriving DecidableEq

/-- Embeds `preprocess_image` (`ocr_engine.py` lines 40–79) as its ordered
step sequence: grayscale, 3× bicubic upscale, Otsu inverse-binary threshold,
horizontal+vertical line removal, re-inversion, 20px border. -/
def preprocessSteps : List TStep :=
  [.grayscale, .upscale 30 .cubic, .otsuInvBinary, .removeHVLines, .invert, .addBorder 20]

/-- Embeds the only selection the callers of the pipeline have
(`perform_ocr`'s boolean `preprocess` flag, `ocr_engine.py` lines 134–135):
apply the one preset, or apply nothing. -/
def pipelineSteps (preprocess : Bool) : List TStep :=
  if preprocess then preprocessSteps else []

/-- The digital-chart preset as the specification describes it (grayscale,
2.5× Lanczos upscale, single global Otsu threshold, auto-inversion on dark
background, 60px border); stated only to compare with what the code
offers. -/
def digitalChartSteps : List TStep :=
  [.grayscale, .upscale 25 .lanczos, .otsuBinaryPlain, .autoInvertIfDark, .addBorder 60]

/-! ## Helper lemmas: occurrence combinatorics of the embedded `str`
operations -/

/-- If a border-free pattern `t` is a prefix of `a ++ t ++ b` with `a`
non-empty, the head occurrence lies entirely inside `a`. -/
theorem prefix_overlap {t a b : List Char}
    (hb : ∀ k < t.length, 0 < k → t.take k ≠ t.drop (t.length - k))
    (ha : a ≠ []) (h : t <+: a ++ t ++ b) : t <+: a ∧ t.length ≤ a.length := by
  rcases le_or_lt t.length a.length with hle | hlt
  · refine ⟨?_, hle⟩
    have h1 : t = (a ++ t ++ b).take t.length := List.prefix_iff_eq_take.mp h
    rw [List.append_assoc, List.take_append_eq_append_take,
      Nat.sub_eq_zero_of_le hle, List.take_zero, List.append_nil] at h1
    exact h1 ▸ List.take_prefix _ _
  · exfalso
    have h1 : t = (a ++ (t ++ b)).take t.length := by
      rw [← List.append_assoc]; exact List.prefix_iff_eq_take.mp h
    rw [List.take_append_eq_append_take, List.take_of_length_le (le_of_lt hlt),
      List.take_append_of_le_length (Nat.sub_le _ _)] at h1
    have hpos : 0 < a.length := List.length_pos.mpr ha
    have hdrop : t.drop a.length = t.take (t.length - a.length) := by
      conv_lhs => rw [h1]
      rw [List.drop_append_eq_append_drop, List.drop_length]
      simp
    have hk1 : t.length - a.length < t.length :=
      Nat.sub_lt (lt_of_le_of_lt (Nat.zero_le _) hlt) hpos
    have hk2 : 0 < t.length - a.length := Nat.sub_pos_of_lt hlt
    refine hb (t.length - a.length) hk1 hk2 ?_
    rw [Nat.sub_sub_self (le_of_lt hlt)]
    exact hdrop.symm

/-- The embedded `in` test agrees with list-infix containment. -/
theorem containsL_iff (c : Char) (cs : List Char) :
    ∀ s, containsL c cs s = true ↔ (c :: cs) <:+: s := by
  intro s
  induction s with
  | nil => simp [containsL, List.infix_nil]
  | cons x xs ih =>
    simp only [containsL, Bool.or_eq_true, List.isPrefixOf_iff_prefix, ih,
      List.infix_cons_iff]

/-- The embedded split never returns an empty list of parts. -/
theorem splitOnFuel_ne_nil (c : Char) (cs : List Char) :
    ∀ fuel s, splitOnFuel c cs fuel s ≠ [] := by
  intro fuel
  induction fuel with
  | zero => intro s; simp [splitOnFuel]
  | succ n ih =>
    intro s
    match s with
    | [] => simp [splitOnFuel]
    | x :: xs =>
      simp only [splitOnFuel]
      split
      · simp
      · split
        · simp
        · simp

/-- Splitting a string without an occurrence of the separator leaves it
whole. -/
theorem splitOnFuel_no_occurrence (c : Char) (cs : List Char) :
    ∀ fuel s, s.length ≤ fuel → ¬ (c :: cs) <:+: s →
      splitOnFuel c cs fuel s = [s] := by
  intro fuel
  induction fuel with
  | zero => intro s _ _; rfl
  | succ n ih =>
    intro s hlen hinf
    match s with
    | [] => rfl
    | x :: xs =>
      have hp : (c :: cs).isPrefixOf (x :: xs) = false := by
        rw [← Bool.not_eq_true, List.isPrefixOf_iff_prefix]
        exact fun hpre => hinf hpre.isInfix
      have hx : ¬ (c :: cs) <:+: xs := fun hi => hinf (List.infix_cons hi)
      have hlen2 : xs.length ≤ n := by
        simp only [List.length_cons] at hlen; omega
      simp only [splitOnFuel, hp, Bool.false_eq_true, if_false, ih xs hlen2 hx]

/-- A string containing the separator splits into at least two parts. -/
theorem two_le_splitOnFuel (c : Char) (cs : List Char) :
    ∀ fuel s, s.length ≤ fuel → (c :: cs) <:+: s →
      2 ≤ (splitOnFuel c cs fuel s).length := by
  intro fuel
  induction fuel with
  | zero =>
    intro s hlen hinf
    have hnil : s = [] := List.length_eq_zero.mp (Nat.le_zero.mp hlen)
    subst hnil
    exact absurd (List.infix_nil.mp hinf) (by simp)
  | succ n ih =>
    intro s hlen hinf
    match s with
    | [] => exact absurd (List.infix_nil.mp hinf) (by simp)
    | x :: xs =>
      by_cases hp : (c :: cs).isPrefixOf (x :: xs) = true
      · simp only [splitOnFuel, hp, if_true]
        have hpos : 0 < (splitOnFuel c cs n (xs.drop cs.length)).length :=
          List.length_pos.mpr (splitOnFuel_ne_nil c cs n (xs.drop cs.length))
        simp only [List.length_cons]
        omega
      · have hp2 : (c :: cs).isPrefixOf (x :: xs) = false := eq_false_of_ne_true hp
        have hx : (c :: cs) <:+: xs := by
          rcases List.infix_cons_iff.mp hinf with hpre | hi
          · exact absurd (List.isPrefixOf_iff_prefix.mpr hpre) (by simp [hp2])
          · exact hi
        have hlen2 : xs.length ≤ n := by
          simp only [List.length_cons] at hlen; omega
        have h2 := ih xs hlen2 hx
        simp only [splitOnFuel, hp2, Bool.false_eq_true, if_false]
        rcases hh : splitOnFuel c cs n xs with _ | ⟨h1, t1⟩
        · exact absurd hh (splitOnFuel_ne_nil c cs n xs)
        · rw [hh] at h2
          simpa using h2

/-- `getLastD` of a non-empty list ignores the default. -/
theorem getLastD_indep {α : Type} (l : List α) (hne : l ≠ []) (d1 d2 : α) :
    l.getLastD d1 = l.getLastD d2 := by
  cases l with
  | nil => exact absurd rfl hne
  | cons y ys => simp only [List.getLastD_cons]

/-- The last part of splitting `a ++ t ++ b` on a border-free separator `t`
that does not occur in `b` is exactly `b`: Python's `parts[-1]` is the
content after the last occurrence of the separator. -/
theorem splitOnFuel_getLastD (c : Char) (cs : List Char)
    (hb : ∀ k < (c :: cs).length, 0 < k →
      (c :: cs).take k ≠ (c :: cs).drop ((c :: cs).length - k)) :
    ∀ fuel a b, (a ++ (c :: cs) ++ b).length ≤ fuel → ¬ (c :: cs) <:+: b →
      (splitOnFuel c cs fuel (a ++ (c :: cs) ++ b)).getLastD [] = b := by
  intro fuel
  induction fuel with
  | zero =>
    intro a b hlen _
    exfalso
    simp [List.length_append] at hlen
  | succ n ih =>
    intro a b hlen hinf
    match a with
    | [] =>
      have hshape : ([] : List Char) ++ (c :: cs) ++ b = c :: (cs ++ b) := by simp
      rw [hshape]
      have hp : (c :: cs).isPrefixOf (c :: (cs ++ b)) = true := by
        rw [List.isPrefixOf_iff_prefix]
        exact ⟨b, by simp⟩
      simp only [splitOnFuel, hp, if_true]
      rw [List.getLastD_cons, List.drop_left]
      have hlenb : b.length ≤ n := by
        simp only [hshape, List.length_cons, List.length_append] at hlen ⊢
        omega
      rw [splitOnFuel_no_occurrence c cs n b hlenb hinf]
      rfl
    | x :: a2 =>
      have hshape : (x :: a2) ++ (c :: cs) ++ b = x :: (a2 ++ (c :: cs) ++ b) := by simp
      by_cases hp : (c :: cs).isPrefixOf ((x :: a2) ++ (c :: cs) ++ b) = true
      · have hpre : (c :: cs) <+: (x :: a2) ++ (c :: cs) ++ b :=
          List.isPrefixOf_iff_prefix.mp hp
        obtain ⟨-, hlelen⟩ := prefix_overlap hb (by simp) hpre
        rw [hshape] at hp ⊢
        simp only [splitOnFuel, hp, if_true]
        have hdrop : (a2 ++ (c :: cs) ++ b).drop cs.length
            = ((x :: a2).drop (c :: cs).length) ++ (c :: cs) ++ b := by
          have hstep : (a2 ++ (c :: cs) ++ b).drop cs.length
              = (x :: (a2 ++ (c :: cs) ++ b)).drop (cs.length + 1) := by simp
          rw [hstep]
          have hx : (x :: (a2 ++ (c :: cs) ++ b)) = (x :: a2) ++ ((c :: cs) ++ b) := by
            simp
          rw [hx, List.drop_append_eq_append_drop]
          have hle : cs.length + 1 ≤ (x :: a2).length := by
            simpa [List.length_cons] using hlelen
          rw [Nat.sub_eq_zero_of_le hle, List.drop_zero]
          simp [List.length_cons]
        rw [hdrop, List.getLastD_cons]
        have hlen2 : (((x :: a2).drop (c :: cs).length) ++ (c :: cs) ++ b).length ≤ n := by
          simp only [List.length_append, List.length_drop, List.length_cons] at hlen ⊢
          omega
        exact ih ((x :: a2).drop (c :: cs).length) b hlen2 hinf
      · have hp2 : (c :: cs).isPrefixOf ((x :: a2) ++ (c :: cs) ++ b) = false :=
          eq_false_of_ne_true hp
        rw [hshape] at hp2 ⊢
        simp only [splitOnFuel, hp2, Bool.false_eq_true, if_false]
        have hlen2 : (a2 ++ (c :: cs) ++ b).length ≤ n := by
          simp only [hshape, List.length_cons] at hlen
          omega
        have hlast := ih a2 b hlen2 hinf
        have htwo : 2 ≤ (splitOnFuel c cs n (a2 ++ (c :: cs) ++ b)).length :=
          two_le_splitOnFuel c cs n _ hlen2 (List.infix_append _ _ _)
        rcases hh : splitOnFuel c cs n (a2 ++ (c :: cs) ++ b) with _ | ⟨h1, t1⟩
        · exact absurd hh (splitOnFuel_ne_nil c cs n _)
        · rw [hh] at hlast htwo
          have ht1 : t1 ≠ [] := by
            intro he
            rw [he] at htwo
            simp at htwo
          rw [List.getLastD_cons]
          rw [List.getLastD_cons] at hlast
          rw [getLastD_indep t1 ht1 (x :: h1) h1]
          exact hlast

/-- Removing a pattern from a string not containing it is the identity. -/
theorem removeAllFuel_no_occurrence (c : Char) (cs : List Char) :
    ∀ fuel s, s.length ≤ fuel → ¬ (c :: cs) <:+: s →
      removeAllFuel c cs fuel s = s := by
  intro fuel
  induction fuel with
  | zero => intro s _ _; rfl
  | succ n ih =>
    intro s hlen hinf
    match s with
    | [] => rfl
    | x :: xs =>
      have hp : (c :: cs).isPrefixOf (x :: xs) = false := by
        rw [← Bool.not_eq_true, List.isPrefixOf_iff_prefix]
        exact fun hpre => hinf hpre.isInfix
      have hx : ¬ (c :: cs) <:+: xs := fun hi => hinf (List.infix_cons hi)
      have hlen2 : xs.length ≤ n := by
        simp only [List.length_cons] at hlen; omega
      simp only [removeAllFuel, hp, Bool.false_eq_true, if_false, ih xs hlen2 hx]

/-- Removing a border-free pattern from `a ++ t ++ b`, where neither `a`
nor `b` contains it, yields `a ++ b`. -/
theorem removeAllFuel_single (c : Char) (cs : List Char)
    (hb : ∀ k < (c :: cs).length, 0 < k →
      (c :: cs).take k ≠ (c :: cs).drop ((c :: cs).length - k)) :
    ∀ fuel a b, (a ++ (c :: cs) ++ b).length ≤ fuel →
      ¬ (c :: cs) <:+: a → ¬ (c :: cs) <:+: b →
      removeAllFuel c cs fuel (a ++ (c :: cs) ++ b) = a ++ b := by
  intro fuel
  induction fuel with
  | zero =>
    intro a b hlen _ _
    exfalso
    simp [List.length_append] at hlen
  | succ n ih =>
    intro a b hlen hinfa hinfb
    match a with
    | [] =>
      have hshape : ([] : List Char) ++ (c :: cs) ++ b = c :: (cs ++ b) := by simp
      rw [hshape]
      have hp : (c :: cs).isPrefixOf (c :: (cs ++ b)) = true := by
        rw [List.isPrefixOf_iff_prefix]
        exact ⟨b, by simp⟩
      simp only [removeAllFuel, hp, if_true]
      rw [List.drop_left]
      have hlenb : b.length ≤ n := by
        simp only [hshape, List.length_cons, List.length_append] at hlen
        omega
      rw [removeAllFuel_no_occurrence c cs n b hlenb hinfb]
      rfl
    | x :: a2 =>
      have hshape : (x :: a2) ++ (c :: cs) ++ b = x :: (a2 ++ (c :: cs) ++ b) := by simp
      have hp : (c :: cs).isPrefixOf ((x :: a2) ++ (c :: cs) ++ b) = false := by
        rw [← Bool.not_eq_true, List.isPrefixOf_iff_prefix]
        intro hpre
        obtain ⟨hprea, -⟩ := prefix_overlap hb (by simp) hpre
        exact hinfa hprea.isInfix
      rw [hshape] at hp ⊢
      simp only [removeAllFuel, hp, Bool.false_eq_true, if_false]
      have hlen2 : (a2 ++ (c :: cs) ++ b).length ≤ n := by
        simp only [hshape, List.length_cons] at hlen
        omega
      have hinfa2 : ¬ (c :: cs) <:+: a2 := fun hi => hinfa (List.infix_cons hi)
      rw [ih a2 b hlen2 hinfa2 hinfb]
      simp

/-- The closing reasoning delimiter has no non-trivial border, so its
occurrences never overlap. -/
theorem closeTag_borderfree :
    ∀ k < (cTagHead :: cTagTail).length, 0 < k →
      (cTagHead :: cTagTail).take k ≠
        (cTagHead :: cTagTail).drop ((cTagHead :: cTagTail).length - k) := by decide

/-- The opening reasoning delimiter has no non-trivial border. -/
theorem openTag_borderfree :
    ∀ k < (oTagHead :: oTagTail).length, 0 < k →
      (oTagHead :: oTagTail).take k ≠
        (oTagHead :: oTagTail).drop ((oTagHead :: oTagTail).length - k) := by decide

/-- Closing-tag branch of the post-processing: the returned content is the
content after the last closing delimiter, whitespace-stripped. -/
theorem stripThink_close (a b : List Char) (h : ¬ closeTag <:+: b) :
    stripThink (a ++ closeTag ++ b) = stripL b := by
  have hc : containsL cTagHead cTagTail (a ++ closeTag ++ b) = true :=
    (containsL_iff _ _ _).mpr (List.infix_append _ _ _)
  have htwo : 2 ≤ (splitOnL cTagHead cTagTail (a ++ closeTag ++ b)).length :=
    two_le_splitOnFuel _ _ _ _ (le_refl _) (List.infix_append _ _ _)
  have hlast : (splitOnL cTagHead cTagTail (a ++ closeTag ++ b)).getLastD [] = b :=
    splitOnFuel_getLastD _ _ closeTag_borderfree _ a b (le_refl _) h
  simp only [stripThink, hc, if_true, hlast]
  rw [if_pos (by omega)]

/-- Opening-tag-only branch of the post-processing: the returned content is
the input with the opening delimiter removed, whitespace-stripped. -/
theorem stripThink_open (a b : List Char)
    (ha : ¬ openTag <:+: a) (hbb : ¬ openTag <:+: b)
    (hclose : ¬ closeTag <:+: (a ++ openTag ++ b)) :
    stripThink (a ++ openTag ++ b) = stripL (a ++ b) := by
  have hc : containsL cTagHead cTagTail (a ++ openTag ++ b) = false :=
    eq_false_of_ne_true (fun hh => hclose ((containsL_iff _ _ _).mp hh))
  have ho : containsL oTagHead oTagTail (a ++ openTag ++ b) = true :=
    (containsL_iff _ _ _).mpr (List.infix_append _ _ _)
  have hrem : removeAllL oTagHead oTagTail (a ++ openTag ++ b) = a ++ b :=
    removeAllFuel_single _ _ openTag_borderfree _ a b (le_refl _) ha hbb
  simp only [stripThink, hc, Bool.false_eq_true, if_false, ho, if_true, hrem]

/-- With neither delimiter present, the post-processing returns the content
unchanged. -/
theorem stripThink_neither (s : List Char)
    (hclose : ¬ closeTag <:+: s) (hopen : ¬ openTag <:+: s) :
    stripThink s = s := by
  have hc : containsL cTagHead cTagTail s = false :=
    eq_false_of_ne_true (fun hh => hclose ((containsL_iff _ _ _).mp hh))
  have ho : containsL oTagHead oTagTail s = false :=
    eq_false_of_ne_true (fun hh => hopen ((containsL_iff _ _ _).mp hh))
  simp only [stripThink, hc, Bool.false_eq_true, if_false, ho]

/-- `check_rate_limit` phrased through the sliding-window counts. -/
theorem checkRateLimit_eq (k : KeyRecord) (now : Int) :
    checkRateLimit k now =
      if k.rate_limit_per_minute ≤ countSince k.requests_log (now - 60) then
        (false, perMinuteMsg)
      else if k.rate_limit_per_day ≤ countSince k.requests_log (now - 86400) then
        (false, dailyMsg)
      else
        (true, []) := rfl

/-! ## Claim theorems -/

/-- Claim C1: for every credential and every time `now`, the quota guard
denies with the per-minute reason if and only if the number of usage events
with timestamp strictly greater than `now - 60` is at least
`limit_per_minute`; otherwise it denies with the daily reason if and only
if the number of events with timestamp strictly greater than `now - 86400`
is at least `limit_per_day`; otherwise it admits.  The per-minute check is
applied first and the two deny reasons are distinct. -/
theorem quota_guard_decision (k : KeyRecord) (now : Int) :
    (checkRateLimit k now = (false, perMinuteMsg) ↔
      k.rate_limit_per_minute ≤ countSince k.requests_log (now - 60))
    ∧ (countSince k.requests_log (now - 60) < k.rate_limit_per_minute →
      (checkRateLimit k now = (false, dailyMsg) ↔
        k.rate_limit_per_day ≤ countSince k.requests_log (now - 86400)))
    ∧ (checkRateLimit k now = (true, []) ↔
      (countSince k.requests_log (now - 60) < k.rate_limit_per_minute ∧
       countSince k.requests_log (now - 86400) < k.rate_limit_per_day))
    ∧ perMinuteMsg ≠ dailyMsg := by
  have hne : perMinuteMsg ≠ dailyMsg := by decide
  have hne2 : dailyMsg ≠ perMinuteMsg := fun hx => hne hx.symm
  rw [checkRateLimit_eq]
  split_ifs with h1 h2
  · exact ⟨iff_of_true rfl h1,
      fun hlt => absurd h1 (not_le.mpr hlt),
      iff_of_false (fun hx => Bool.noConfusion (congrArg Prod.fst hx))
        (fun hx => absurd h1 (not_le.mpr hx.1)),
      hne⟩
  · exact ⟨iff_of_false (fun hx => hne2 (congrArg Prod.snd hx)) h1,
      fun _ => iff_of_true rfl h2,
      iff_of_false (fun hx => Bool.noConfusion (congrArg Prod.fst hx))
        (fun hx => absurd h2 (not_le.mpr hx.2)),
      hne⟩
  · exact ⟨iff_of_false (fun hx => Bool.noConfusion (congrArg Prod.fst hx)) h1,
      fun _ => iff_of_false (fun hx => Bool.noConfusion (congrArg Prod.fst hx)) h2,
      iff_of_true rfl ⟨not_le.mp h1, not_le.mp h2⟩,
      hne⟩

/-- Claim C4: after every completed usage write, the stored usage-event
list contains only timestamps strictly newer than 24 hours (86400 seconds)
before the write's `now`. -/
theorem usage_write_prunes_old_events (k : KeyRecord) (now : Int) :
    ∀ ts ∈ (updateKeyUsage k now).requests_log, now - 86400 < ts := by
  intro ts hts
  simp only [updateKeyUsage] at hts
  exact of_decide_eq_true (List.mem_filter.mp hts).2

/-- Witness for C4 at a concrete record: a write at `now = 0` over the log
`[-100000, 5]` keeps `5`, and `5` is indeed newer than `0 - 86400`. -/
theorem usage_write_prunes_old_events_witness :
    ((5 : Int) ∈ (updateKeyUsage
        ⟨"k".data, "n".data, "h".data, true, 2, 1000, 0, [-100000, 5], none⟩
        0).requests_log)
    ∧ (0 : Int) - 86400 < 5 :=
  ⟨by decide,
   usage_write_prunes_old_events
     ⟨"k".data, "n".data, "h".data, true, 2, 1000, 0, [-100000, 5], none⟩
     0 5 (by decide)⟩

/-- Claim C10: a presented secret that is empty or does not start with
`"ocr_"` makes credential lookup return not-found without computing the
secret's digest or consulting the stored credentials, for every digest
function and every store. -/
theorem invalid_marker_short_circuit (digest : List Char → List Char)
    (raw : List Char) (store : List KeyRecord) (h : ¬ keyMarker <+: raw) :
    validateApiKey digest raw store = ([], none) := by
  have hp : keyMarker.isPrefixOf raw = false := by
    rw [← Bool.not_eq_true, List.isPrefixOf_iff_prefix]
    exact h
  simp [validateApiKey, hp]

/-- Witness for C10: a secret without the `"ocr_"` marker is rejected with
no digest computation and no store read, even when the store holds a record
whose stored digest equals the digest of that very secret. -/
theorem invalid_marker_short_circuit_witness :
    (¬ keyMarker <+: "sk_test_123".data)
    ∧ validateApiKey (fun s => s) "sk_test_123".data
        [⟨"id1".data, "n".data, "sk_test_123".data, true, 60, 1000, 0, [], none⟩]
        = ([], none) :=
  ⟨by decide,
   invalid_marker_short_circuit (fun s => s) "sk_test_123".data
     [⟨"id1".data, "n".data, "sk_test_123".data, true, 60, 1000, 0, [], none⟩]
     (by decide)⟩

/-- Counterexample to claim C5 as stated: for the backend response
`"a</think> b "` the returned content is `"b"`, not the exact content
`" b "` after the closing delimiter — the code additionally strips
surrounding whitespace. -/
theorem reasoning_tag_exact_content_cex :
    "a".data ++ closeTag ++ " b ".data = "a</think> b ".data
    ∧ stripThink ("a</think> b ".data) = "b".data
    ∧ ("b".data == " b ".data) = false := by
  refine ⟨by decide, by decide, by decide⟩

/-- Claim C5 (amended): with a closing delimiter present, the returned
content is the whitespace-stripped content after the last closing
delimiter; with only an opening delimiter, the returned content is the
input with the delimiter markers removed and whitespace-stripped; with
neither, the input is returned unchanged.  Concrete instances of the three
cases follow. -/
theorem reasoning_tag_postprocessing :
    (∀ a b : List Char, ¬ closeTag <:+: b →
      stripThink (a ++ closeTag ++ b) = stripL b)
    ∧ (∀ a b : List Char, ¬ openTag <:+: a → ¬ openTag <:+: b →
      ¬ closeTag <:+: (a ++ openTag ++ b) →
      stripThink (a ++ openTag ++ b) = stripL (a ++ b))
    ∧ (∀ s : List Char, ¬ closeTag <:+: s → ¬ openTag <:+: s → stripThink s = s)
    ∧ stripThink ("reasoning</think> answer ".data) = "answer".data
    ∧ stripThink ("<think> partial stuff".data) = "partial stuff".data
    ∧ stripThink ("plain text".data) = "plain text".data :=
  ⟨stripThink_close, stripThink_open, stripThink_neither,
   by decide, by decide, by decide⟩

/-- Counterexample to claim C7 as stated: the first protocol step of
`understand_image` is acquiring the concurrency-gate slot, not the health
probe — the probe runs inside the gated section. -/
theorem probe_after_acquire_cex :
    (understandImage false "probe down".data CallOutcome.timedOut).1
      = [VlmEvent.acquire, VlmEvent.probe, VlmEvent.release]
    ∧ ((understandImage false "probe down".data CallOutcome.timedOut).1).head?
        = some VlmEvent.acquire
    ∧ (VlmEvent.acquire == VlmEvent.probe) = false := by
  refine ⟨rfl, rfl, rfl⟩

/-- Claim C7 (amended): the health probe is the first step inside the
concurrency gate, performed immediately after acquiring the slot; when the
probe reports the backend unhealthy, the call fails with the
backend-unavailable failure (`ConnectionError`, HTTP 503) and the main
inference call is never issued. -/
theorem probe_inside_gate :
    (∀ (h : Bool) (e : List Char) (o : CallOutcome),
      ((understandImage h e o).1).take 2 = [VlmEvent.acquire, VlmEvent.probe])
    ∧ (∀ (h : Bool) (e : List Char) (o : CallOutcome),
      ((understandImage h e o).1).head? = some VlmEvent.acquire)
    ∧ (∀ (e : List Char) (o : CallOutcome),
      (understandImage false e o).1 = [VlmEvent.acquire, VlmEvent.probe, VlmEvent.release])
    ∧ (∀ (e : List Char) (o : CallOutcome),
      (understandImage false e o).2 = .error (.connectionError (vlmNotAvailableMsg e)))
    ∧ (∀ (e : List Char) (o : CallOutcome),
      ((understandImage false e o).1).count VlmEvent.mainCall = 0)
    ∧ (∀ m : List Char, routeStatus (.connectionError m) = 503) := by
  refine ⟨?_, ?_, ?_, ?_, ?_, fun m => rfl⟩
  · intro h e o
    cases h
    · rfl
    · cases o <;> rfl
  · intro h e o
    cases h
    · rfl
    · cases o <;> rfl
  · intro e o
    rfl
  · intro e o
    rfl
  · intro e o
    rfl

/-- Counterexample to claim C6 as stated: a transport failure during the
main call (other than a timeout or a non-2xx response) surfaces as a
`RuntimeError` mapped to HTTP 500, not as the backend-unavailable failure
(`ConnectionError`, HTTP 503). -/
theorem transport_failure_category_cex :
    (understandImage true [] (CallOutcome.transportError "connection reset".data)).2
      = .error (.runtimeError (vlmRequestFailedMsg "connection reset".data))
    ∧ resultIsUnavailable
        (understandImage true [] (CallOutcome.transportError "connection reset".data)).2
        = false
    ∧ routeStatus (.runtimeError (vlmRequestFailedMsg "connection reset".data)) = 500
    ∧ routeStatus (.connectionError []) = 503 := by
  refine ⟨rfl, rfl, rfl, rfl⟩

/-- Claim C6 (amended): a timed-out inference call surfaces as the timeout
failure (`TimeoutError`, HTTP 504); a non-2xx backend response surfaces as
a `RuntimeError` carrying the backend's status and body (HTTP 500); any
other transport failure during the main call also surfaces as a
`RuntimeError` (HTTP 500), not as the backend-unavailable failure; the
backend-unavailable failure (`ConnectionError`, HTTP 503) arises exactly
from the failed health probe. -/
theorem failure_taxonomy_mapping :
    (∀ e : List Char, (understandImage true e CallOutcome.timedOut).2
      = .error (.timeoutError vlmTimeoutMsg))
    ∧ (∀ (st : Nat) (body e : List Char),
      (understandImage true e (CallOutcome.httpError st body)).2
        = .error (.runtimeError (vlmServerErrMsg st body)))
    ∧ (∀ m e : List Char,
      (understandImage true e (CallOutcome.transportError m)).2
        = .error (.runtimeError (vlmRequestFailedMsg m)))
    ∧ (∀ (e : List Char) (o : CallOutcome),
      resultIsUnavailable (understandImage true e o).2 = false)
    ∧ (∀ (e : List Char) (o : CallOutcome),
      (understandImage false e o).2 = .error (.connectionError (vlmNotAvailableMsg e)))
    ∧ routeStatus (.timeoutError vlmTimeoutMsg) = 504
    ∧ (∀ m : List Char, routeStatus (.runtimeError m) = 500)
    ∧ (∀ m : List Char, routeStatus (.connectionError m) = 503) := by
  refine ⟨fun e => rfl, fun st body e => rfl, fun m e => rfl, ?_,
    fun e o => rfl, rfl, fun m => rfl, fun m => rfl⟩
  intro e o
  cases o <;> rfl

/-- Counterexample to claim C8 as stated: neither selectable mode of the
transform pipeline (the boolean preprocess flag) equals the digital-chart
preset the specification describes, and no mode contains a 2.5× Lanczos
upscale, a 60px border, or auto-inversion. -/
theorem digital_chart_preset_cex :
    (pipelineSteps true == digitalChartSteps) = false
    ∧ (pipelineSteps false == digitalChartSteps) = false
    ∧ (pipelineSteps true).contains (TStep.upscale 25 Interp.lanczos) = false
    ∧ (pipelineSteps false).contains (TStep.upscale 25 Interp.lanczos) = false
    ∧ (pipelineSteps true).contains (TStep.addBorder 60) = false
    ∧ (pipelineSteps true).contains TStep.autoInvertIfDark = false := by
  refine ⟨by decide, by decide, by decide, by decide, by decide, by decide⟩

/-- Claim C8 (amended): the image transform pipeline offers a single
preprocessing preset selected by a boolean flag: when selected it applies
grayscale, a 3× bicubic upscale, an Otsu inverse-binary threshold,
horizontal and vertical line removal, re-inversion, and a 20px light
border; when not selected it applies nothing; there is no digital-chart
preset. -/
theorem single_preprocess_preset :
    pipelineSteps true = preprocessSteps
    ∧ preprocessSteps = [TStep.grayscale, TStep.upscale 30 Interp.cubic,
        TStep.otsuInvBinary, TStep.removeHVLines, TStep.invert, TStep.addBorder 20]
    ∧ pipelineSteps false = []
    ∧ (pipelineSteps true == digitalChartSteps) = false
    ∧ (pipelineSteps false == digitalChartSteps) = false :=
  ⟨rfl, rfl, rfl, by decide, by decide⟩

/-- The four possible shapes of one admission step: a deny leaves the store
untouched, an admit records usage for the admitted credential. -/
theorem getApiKey_cases (dg : List Char → List Char) (raw : List Char)
    (store : List KeyRecord) (tC tR : Int) :
    (∃ msg, getApiKey dg raw store tC tR = (.rateLimited msg, store))
    ∨ (∃ k, (validateApiKey dg raw store).2 = some k
        ∧ (checkRateLimit k tC).1 = true
        ∧ getApiKey dg raw store tC tR = (.admitted k, updateKeyUsageStore store k.id tR))
    ∨ getApiKey dg raw store tC tR = (.missingKey, store)
    ∨ getApiKey dg raw store tC tR = (.invalidKey, store) := by
  unfold getApiKey
  by_cases h0 : raw.isEmpty = true
  · right; right; left
    simp [h0]
  · have h0f : raw.isEmpty = false := eq_false_of_ne_true h0
    rcases hv : (validateApiKey dg raw store).2 with _ | kd
    · right; right; right
      simp [h0f, hv]
    · by_cases hc : (checkRateLimit kd tC).1 = false
      · left
        exact ⟨(checkRateLimit kd tC).2, by simp [h0f, hv, hc]⟩
      · right; left
        refine ⟨kd, rfl, ?_, ?_⟩
        · cases hcc : (checkRateLimit kd tC).1
          · exact absurd hcc hc
          · rfl
        · simp [h0f, hv, hc]

set_option linter.unnecessarySeqFocus false

/-- Claim C2: the quota guard is evaluated on the stored usage history,
which does not yet contain the current request, and the usage record is
written only after the request is admitted, never on a denied request; for
a credential with `limit_per_minute = 2` and no recent usage, three rapid
sequential requests are admitted, admitted, then denied with the per-minute
reason and no store change. -/
theorem admission_evaluates_then_records :
    (∀ (dg : List Char → List Char) (raw : List Char) (store : List KeyRecord)
      (tC tR : Int) (msg : List Char),
      (getApiKey dg raw store tC tR).1 = .rateLimited msg →
      (getApiKey dg raw store tC tR).2 = store)
    ∧ (∀ (dg : List Char → List Char) (raw : List Char) (store : List KeyRecord)
      (tC tR : Int) (k : KeyRecord),
      (getApiKey dg raw store tC tR).1 = .admitted k →
      (validateApiKey dg raw store).2 = some k
      ∧ (checkRateLimit k tC).1 = true
      ∧ (getApiKey dg raw store tC tR).2 = updateKeyUsageStore store k.id tR)
    ∧ isAdmitted demoStep1.1 = true
    ∧ isAdmitted demoStep2.1 = true
    ∧ demoStep3.1 = .rateLimited perMinuteMsg
    ∧ demoStep3.2 = demoStep2.2 := by
  refine ⟨?_, ?_, by decide, by decide, by decide, by decide⟩
  · intro dg raw store tC tR msg h
    rcases getApiKey_cases dg raw store tC tR with ⟨m, he⟩ | ⟨k, -, -, he⟩ | he | he <;>
      rw [he] at h ⊢ <;> simp_all
  · intro dg raw store tC tR k h
    rcases getApiKey_cases dg raw store tC tR with ⟨m, he⟩ | ⟨k2, hv, hc, he⟩ | he | he
    · rw [he] at h; simp at h
    · rw [he] at h
      have hk : k2 = k := by
        simpa using h
      subst hk
      exact ⟨hv, hc, by rw [he]⟩
    · rw [he] at h; simp at h
    · rw [he] at h; simp at h

/-- The loop of `perform_batch_ocr` processes every item, keeps input
order, and counts successes and failures exactly. -/
theorem batchRun_spec {β : Type} (runItem : β → Except (List Char) (List Char)) :
    ∀ images : List (List Char × β),
      (batchRun runItem images).1.length = images.length
      ∧ (batchRun runItem images).2.1 + (batchRun runItem images).2.2 = images.length
      ∧ (batchRun runItem images).1.map recordFilename = images.map Prod.fst
      ∧ (batchRun runItem images).1.map isOkRecord
          = images.map (fun p => exceptIsOk (runItem p.2)) := by
  intro images
  induction images with
  | nil => exact ⟨rfl, rfl, rfl, rfl⟩
  | cons p rest ih =>
    obtain ⟨fn, img⟩ := p
    obtain ⟨ih1, ih2, ih3, ih4⟩ := ih
    rcases hb : batchRun runItem rest with ⟨rs, s, f⟩
    rw [hb] at ih1 ih2 ih3 ih4
    simp only at ih1 ih2 ih3 ih4
    rcases hr : runItem img with e | t <;>
      · simp only [batchRun, hr, hb]
        refine ⟨by simpa using ih1, by simp; omega, ?_, ?_⟩
        · simpa [recordFilename] using ih3
        · simpa [isOkRecord, exceptIsOk, hr] using ih4

/-- Claim C9: batch processing runs every item even when some fail; a
failing item yields a per-item error record and does not abort or alter the
others; the aggregate reports `successful + failed = total` with one result
entry per item in input order — for both the OCR batch loop and the
understanding batch; and for a batch of three images whose second is
undecodable, the result reports two successes, one failure, the decode
error on item 2 and normal results on items 1 and 3. -/
theorem batch_isolation_and_counts :
    (∀ (β : Type) (runItem : β → Except (List Char) (List Char))
      (images : List (List Char × β)),
      (performBatchOcr runItem images).total_files = images.length
      ∧ (performBatchOcr runItem images).results.length = images.length
      ∧ (performBatchOcr runItem images).successful
          + (performBatchOcr runItem images).failed
          = (performBatchOcr runItem images).total_files
      ∧ (performBatchOcr runItem images).results.map recordFilename
          = images.map Prod.fst
      ∧ (performBatchOcr runItem images).results.map isOkRecord
          = images.map (fun p => exceptIsOk (runItem p.2)))
    ∧ (∀ (β : Type) (runItem : β → Except (List Char) (List Char))
      (images : List (List Char × β)),
      (batchUnderstand runItem images).total_files = images.length
      ∧ (batchUnderstand runItem images).results.length = images.length
      ∧ (batchUnderstand runItem images).successful
          + (batchUnderstand runItem images).failed
          = (batchUnderstand runItem images).total_files
      ∧ (batchUnderstand runItem images).results.map recordFilename
          = images.map Prod.fst)
    ∧ performBatchOcr decodeOrOcr
        [("img1".data, some "textA".data), ("img2".data, none),
         ("img3".data, some "textC".data)]
        = ⟨3, 2, 1, [ItemRecord.ok "img1".data "textA".data,
            ItemRecord.err "img2".data decodeErrMsg,
            ItemRecord.ok "img3".data "textC".data]⟩ := by
  refine ⟨?_, ?_, by decide⟩
  · intro β runItem images
    obtain ⟨h1, h2, h3, h4⟩ := batchRun_spec runItem images
    rcases hb : batchRun runItem images with ⟨rs, s, f⟩
    rw [hb] at h1 h2 h3 h4
    simp only at h1 h2 h3 h4
    have hP : performBatchOcr runItem images = ⟨images.length, s, f, rs⟩ := by
      simp only [performBatchOcr, hb]
    rw [hP]
    exact ⟨rfl, h1, h2, h3, h4⟩
  · intro β runItem images
    refine ⟨rfl, ?_, ?_, ?_⟩
    · simp [batchUnderstand]
    · simp only [batchUnderstand]
      rw [Nat.add_sub_cancel' (List.length_filter_le _ _)]
      simp
    · simp only [batchUnderstand, List.map_map]
      refine List.map_congr_left ?_
      intro p hp
      cases hrp : runItem p.2 <;> simp [recordFilename, hrp]

end OcrCore
